import Mathlib

/-!
Verification of the rp2040-hal I²C controller driver
(`src/rp2040-hal/src/i2c/controller.rs`).

The driver is embedded shallowly:

* `new_controller` (timing configuration) becomes a pure function on the
  `u32` inputs `system_clock_hz` (`freq_in`) and `bus_freq_hz` (`freq`).
  Machine arithmetic is `Nat` with an explicit `% 2^32` wherever the Rust
  `u32` operations can wrap, and the `as u16` / `as u8` register casts are
  explicit `% 65536` / `% 256`.  The `assert!` failures are modelled as
  `none`.
* The byte-transfer engine (`read_internal`, `write_internal`) and the
  public entry points become trace-producing functions.  Hardware
  responses to the busy-wait loops are supplied by oracles: for each read
  command, either a byte arrives or the abort-reason register becomes
  non-zero (`ReadResp`); for each written byte, the abort-reason register
  read yields `none` or `some reason`.  Every write to the command/data
  register and every target-address programming is recorded as an `Event`.
* A `usize` underflow of `buffer.len() - 1` (checked arithmetic panic) is
  modelled as `none` at the `Option` level.
-/

namespace RpHalI2c

/-- Errors of the driver, from the `Error` enum used by `controller.rs`
(`AddressOutOfRange`/`AddressReserved` carry the `address as u16` payload,
`Abort` carries the raw 32-bit abort-reason bit field). -/
inductive Error
  | InvalidWriteBufferLength
  | InvalidReadBufferLength
  | AddressOutOfRange (a : Nat)
  | AddressReserved (a : Nat)
  | Abort (r : Nat)
deriving DecidableEq, Repr

deriving instance DecidableEq for Except

/-- Hardware-visible actions of the driver, in program order:
programming the target-address register (`setup`, i.e. the
disable / `ic_tar` write / enable sequence), pushing a read command with
its restart and stop flags into `ic_data_cmd`, and pushing a data byte
with its stop flag into `ic_data_cmd`. -/
inductive Event
  | setupTar (addr : Nat)
  | cmdRead (restart stop : Bool)
  | cmdWrite (b : Nat) (stop : Bool)
deriving DecidableEq, Repr

/-- Hardware response observed while `read_internal` waits on the RX FIFO
for one byte: either the FIFO becomes non-empty and yields a byte, or the
abort-reason register becomes non-zero first. -/
inductive ReadResp
  | ok (b : Nat)
  | abort (r : Nat)
deriving DecidableEq, Repr

/-- One logical operation of a transaction (`embedded_hal::i2c::Operation`):
a read of a given buffer length, or a write of given bytes. -/
inductive Op
  | read (len : Nat)
  | write (bytes : List Nat)
deriving DecidableEq, Repr

/-- Result of the read engine: the returned `Result`, the issued command
events, and the buffer slots written (index, byte). -/
structure ReadOut where
  result : Except Error Unit
  events : List Event
  writes : List (Nat × Nat)
deriving DecidableEq, Repr

/-- Values written to the four timing registers by `new_controller`
(`ic_fs_scl_hcnt`, `ic_fs_scl_lcnt`, `ic_fs_spklen`, `ic_sda_hold`),
after their `as u16` / `as u8` casts. -/
structure TimingConfig where
  fs_scl_hcnt : Nat
  fs_scl_lcnt : Nat
  fs_spklen : Nat
  sda_tx_hold : Nat
deriving DecidableEq, Repr

/-- The `u32` modulus. -/
def U32 : Nat := 4294967296

/-- The `period = (freq_in + freq / 2) / freq` computation of
`new_controller`, with the `u32` addition wrapping. -/
def i2cPeriod (freq_in freq : Nat) : Nat :=
  (freq_in + freq / 2) % U32 / freq

/-- The `lcnt = period * 3 / 5` computation, with the `u32`
multiplication wrapping. -/
def i2cLcnt (freq_in freq : Nat) : Nat :=
  i2cPeriod freq_in freq * 3 % U32 / 5

/-- The `hcnt = period - lcnt` computation, as wrapping `u32`
subtraction. -/
def i2cHcnt (freq_in freq : Nat) : Nat :=
  (i2cPeriod freq_in freq + (U32 - i2cLcnt freq_in freq)) % U32

/-- The `sda_tx_hold_count` computation of `new_controller`:
`freq_in * 3 / 10000000 + 1` in standard/fast mode (`freq < 1_000_000`),
`freq_in * 3 / 25000000 + 1` in fast mode plus, with the `u32`
multiplication wrapping. -/
def i2cSdaHold (freq_in freq : Nat) : Nat :=
  if freq < 1000000 then freq_in * 3 % U32 / 10000000 + 1
  else freq_in * 3 % U32 / 25000000 + 1

/-- Timing configuration of `new_controller`: the argument checks and the
derived-value `assert!`s become `none` (a panic), and on success the four
register values are returned as written (with their narrowing casts).
The checks appear in source order:  `assert!(freq <= 1_000_000)`,
`assert!(freq > 0)`, then `assert!(hcnt <= 0xffff)`,
`assert!(lcnt <= 0xffff)`, `assert!(hcnt >= 8)`, `assert!(lcnt >= 8)`,
then in the fast-mode-plus branch `assert!(freq_in >= 32_000_000)`, and
finally `assert!(sda_tx_hold_count <= lcnt - 2)` (the `lcnt - 2` cannot
underflow because `lcnt >= 8` was already checked). -/
def new_controller (freq_in freq : Nat) : Option TimingConfig :=
  if 1000000 < freq then none
  else if freq = 0 then none
  else if 65535 < i2cHcnt freq_in freq then none
  else if 65535 < i2cLcnt freq_in freq then none
  else if i2cHcnt freq_in freq < 8 then none
  else if i2cLcnt freq_in freq < 8 then none
  else if 1000000 ≤ freq ∧ freq_in < 32000000 then none
  else if i2cLcnt freq_in freq - 2 < i2cSdaHold freq_in freq then none
  else some
    { fs_scl_hcnt := i2cHcnt freq_in freq % 65536
      fs_scl_lcnt := i2cLcnt freq_in freq % 65536
      fs_spklen :=
        (if i2cLcnt freq_in freq < 16 then 1 else i2cLcnt freq_in freq / 16) % 256
      sda_tx_hold := i2cSdaHold freq_in freq % 65536 }

/-- Argument validation (`I2C::validate`): an empty write buffer, then an
empty read buffer, then a too-large address, then a reserved address are
rejected in that order.  The reserved-address predicate
`i2c_reserved_addr` lives in the parent i2c module (outside this source
file), so it is kept abstract as the parameter `reserved`. -/
def validate (reserved : Nat → Bool) (address : Nat)
    (opt_tx_empty opt_rx_empty : Option Bool) : Except Error Unit :=
  if opt_tx_empty.getD false then .error .InvalidWriteBufferLength
  else if opt_rx_empty.getD false then .error .InvalidReadBufferLength
  else if 0x80 ≤ address then .error (.AddressOutOfRange address)
  else if reserved address then .error (.AddressReserved address)
  else .ok ()

/-- Byte loop of `read_internal`: for index `i` (with `fuel` iterations
remaining) push a read command whose restart flag is set iff
`force_restart` holds and this is the first byte, and whose stop flag is
set iff `do_stop` holds and `i` is `lastindex`; then wait on the RX FIFO,
returning `Abort` as soon as the abort reason turns non-zero, else store
the received byte at index `i`. -/
def readGo (resp : Nat → ReadResp) (lastindex : Nat) (force_restart do_stop : Bool) :
    Nat → Nat → ReadOut
  | 0, _ => ⟨.ok (), [], []⟩
  | fuel + 1, i =>
    let ev := Event.cmdRead (force_restart && i == 0) (do_stop && i == lastindex)
    match resp i with
    | .abort r => ⟨.error (.Abort r), [ev], []⟩
    | .ok b =>
      let rest := readGo resp lastindex force_restart do_stop fuel (i + 1)
      ⟨rest.result, ev :: rest.events, (i, b) :: rest.writes⟩

/-- The read engine `read_internal`: it first computes
`buffer.len() - 1`, which underflows (a panic under checked `usize`
arithmetic) on an empty buffer, modelled as `none`; otherwise it runs the
byte loop over the whole buffer. -/
def read_internal (resp : Nat → ReadResp) (len : Nat) (force_restart do_stop : Bool) :
    Option ReadOut :=
  if len = 0 then none
  else some (readGo resp (len - 1) force_restart do_stop len 0)

/-- Byte loop of `write_internal` over the remaining bytes, where `i` is
the current index and `total` the full length: push the byte with the
stop flag set iff `do_stop` holds and the byte is the last one, then wait
for the shift register and read the abort reason (`wresp i`), returning
`Abort` on a non-zero reason. -/
def writeGo (wresp : Nat → Option Nat) (total : Nat) (do_stop : Bool) :
    Nat → List Nat → Except Error Unit × List Event
  | _, [] => (.ok (), [])
  | i, b :: rest =>
    let ev := Event.cmdWrite b (do_stop && i == total - 1)
    match wresp i with
    | some r => (.error (.Abort r), [ev])
    | none =>
      let out := writeGo wresp total do_stop (i + 1) rest
      (out.1, ev :: out.2)

/-- The write engine `write_internal` (an empty slice performs no
hardware access and returns `Ok`, because `bytes.len() - 1` is only
computed inside the loop body). -/
def write_internal (wresp : Nat → Option Nat) (bytes : List Nat) (do_stop : Bool) :
    Except Error Unit × List Event :=
  writeGo wresp bytes.length do_stop 0 bytes

/-- Public `write`: validate `(address, Some(bytes.is_empty()), None)`,
program the target address, then `write_internal(bytes, true)`. -/
def write (reserved : Nat → Bool) (wresp : Nat → Option Nat)
    (address : Nat) (bytes : List Nat) : Except Error Unit × List Event :=
  match validate reserved address (some bytes.isEmpty) none with
  | .error e => (.error e, [])
  | .ok () =>
    let out := write_internal wresp bytes true
    (out.1, Event.setupTar address :: out.2)

/-- Public `read`: validate `(address, None, Some(buffer.is_empty()))`,
program the target address, then `read_internal(buffer, true, true)`. -/
def read (reserved : Nat → Bool) (resp : Nat → ReadResp)
    (address len : Nat) : Option (Except Error Unit × List Event × List (Nat × Nat)) :=
  match validate reserved address none (some (len == 0)) with
  | .error e => some (.error e, [], [])
  | .ok () =>
    (read_internal resp len true true).map fun o =>
      (o.result, Event.setupTar address :: o.events, o.writes)

/-- Public `write_read`: validate both buffers, program the target
address, run `write_internal(tx, false)` and propagate its error, then
`read_internal(rx, true, true)`. -/
def write_read (reserved : Nat → Bool) (wresp : Nat → Option Nat) (resp : Nat → ReadResp)
    (addr : Nat) (tx : List Nat) (rxLen : Nat) :
    Option (Except Error Unit × List Event × List (Nat × Nat)) :=
  match validate reserved addr (some tx.isEmpty) (some (rxLen == 0)) with
  | .error e => some (.error e, [], [])
  | .ok () =>
    let wout := write_internal wresp tx false
    match wout.1 with
    | .error e => some (.error e, Event.setupTar addr :: wout.2, [])
    | .ok () =>
      (read_internal resp rxLen true true).map fun o =>
        (o.result, Event.setupTar addr :: (wout.2 ++ o.events), o.writes)

/-- Loop of `write_iter`: each byte is sent through
`write_internal(&[tx], peekable.peek().is_none())`, so the stop flag is
requested exactly for the final byte of the source. -/
def writeIterGo (wresp : Nat → Option Nat) : Nat → List Nat → Except Error Unit × List Event
  | _, [] => (.ok (), [])
  | i, b :: rest =>
    let out := write_internal (fun _ => wresp i) [b] rest.isEmpty
    match out.1 with
    | .error e => (.error e, out.2)
    | .ok () =>
      let more := writeIterGo wresp (i + 1) rest
      (more.1, out.2 ++ more.2)

/-- Public `write_iter`: validate `(address, Some(peek.is_none()), None)`,
program the target address, then send the bytes one at a time. -/
def write_iter (reserved : Nat → Bool) (wresp : Nat → Option Nat)
    (address : Nat) (bytes : List Nat) : Except Error Unit × List Event :=
  match validate reserved address (some bytes.isEmpty) none with
  | .error e => (.error e, [])
  | .ok () =>
    let out := writeIterGo wresp 0 bytes
    (out.1, Event.setupTar address :: out.2)

/-- Write phase of `write_iter_read`: each byte goes through
`write_internal(&[tx], false)` (the stop flag is never requested). -/
def writesNoStop (wresp : Nat → Option Nat) : Nat → List Nat → Except Error Unit × List Event
  | _, [] => (.ok (), [])
  | i, b :: rest =>
    let out := write_internal (fun _ => wresp i) [b] false
    match out.1 with
    | .error e => (.error e, out.2)
    | .ok () =>
      let more := writesNoStop wresp (i + 1) rest
      (more.1, out.2 ++ more.2)

/-- Public `write_iter_read`: validate
`(address, Some(peek.is_none()), None)` — the read buffer is not part of
the validation — program the target address, send the source bytes
without stop, then `read_internal(buffer, true, true)`. -/
def write_iter_read (reserved : Nat → Bool) (wresp : Nat → Option Nat) (resp : Nat → ReadResp)
    (address : Nat) (bytes : List Nat) (rxLen : Nat) :
    Option (Except Error Unit × List Event × List (Nat × Nat)) :=
  match validate reserved address (some bytes.isEmpty) none with
  | .error e => some (.error e, [], [])
  | .ok () =>
    let wout := writesNoStop wresp 0 bytes
    match wout.1 with
    | .error e => some (.error e, Event.setupTar address :: wout.2, [])
    | .ok () =>
      (read_internal resp rxLen true true).map fun o =>
        (o.result, Event.setupTar address :: (wout.2 ++ o.events), o.writes)

/-- Operation loop of `I2c::transaction` (the embedded-hal 1.0 entry
point): operation `i` of `total` is last iff `i == total - 1`; a `Read`
runs `read_internal(buf, false, last)` (whose empty-buffer panic
propagates as `none`), a `Write` runs `write_internal(buf, last)`, and
the first error stops the loop. -/
def transactionGo (rresp : Nat → Nat → ReadResp) (wresp : Nat → Nat → Option Nat)
    (total : Nat) : Nat → List Op → Option (Except Error Unit × List Event)
  | _, [] => some (.ok (), [])
  | i, op :: rest =>
    match op with
    | .read len =>
      match read_internal (rresp i) len false (i == total - 1) with
      | none => none
      | some o =>
        match o.result with
        | .error e => some (.error e, o.events)
        | .ok () =>
          (transactionGo rresp wresp total (i + 1) rest).map fun out =>
            (out.1, o.events ++ out.2)
    | .write bytes =>
      let wout := write_internal (wresp i) bytes (i == total - 1)
      match wout.1 with
      | .error e => some (.error e, wout.2)
      | .ok () =>
        (transactionGo rresp wresp total (i + 1) rest).map fun out =>
          (out.1, wout.2 ++ out.2)

/-- Public `transaction` (embedded-hal 1.0): program the target address —
with no argument validation — then run the operation loop. -/
def transaction (rresp : Nat → Nat → ReadResp) (wresp : Nat → Nat → Option Nat)
    (address : Nat) (ops : List Op) : Option (Except Error Unit × List Event) :=
  (transactionGo rresp wresp ops.length 0 ops).map fun out =>
    (out.1, Event.setupTar address :: out.2)

/-- Operation loop of `transaction_iter`: the current operation is last
iff `peekable.peek().is_none()`, i.e. iff no operations remain. -/
def transactionIterGo (rresp : Nat → Nat → ReadResp) (wresp : Nat → Nat → Option Nat) :
    Nat → List Op → Option (Except Error Unit × List Event)
  | _, [] => some (.ok (), [])
  | i, op :: rest =>
    match op with
    | .read len =>
      match read_internal (rresp i) len false rest.isEmpty with
      | none => none
      | some o =>
        match o.result with
        | .error e => some (.error e, o.events)
        | .ok () =>
          (transactionIterGo rresp wresp (i + 1) rest).map fun out =>
            (out.1, o.events ++ out.2)
    | .write bytes =>
      let wout := write_internal (wresp i) bytes rest.isEmpty
      match wout.1 with
      | .error e => some (.error e, wout.2)
      | .ok () =>
        (transactionIterGo rresp wresp (i + 1) rest).map fun out =>
          (out.1, wout.2 ++ out.2)

/-- Public `transaction_iter`: program the target address — again with no
argument validation — then run the peekable operation loop. -/
def transaction_iter (rresp : Nat → Nat → ReadResp) (wresp : Nat → Nat → Option Nat)
    (address : Nat) (ops : List Op) : Option (Except Error Unit × List Event) :=
  (transactionIterGo rresp wresp 0 ops).map fun out =>
    (out.1, Event.setupTar address :: out.2)

/-- An operation whose buffer makes `read_internal` well defined: a read
of non-zero length (writes of any length are safe). -/
def opReadNonempty : Op → Bool
  | .read len => len != 0
  | .write _ => true

/-- Sequencing contract stated by the specification, written from its
words: operations run in order; the operation at position `i` out of
`total` is last exactly when `i == total - 1`; a read at a non-last
position runs the byte engine with `force_restart = false` and no stop,
a last read requests stop on its final byte; a write sets the stop flag
exactly on the final byte of the final operation; and the first failure
aborts the remaining operations. -/
def transactionSpecGo (rresp : Nat → Nat → ReadResp) (wresp : Nat → Nat → Option Nat)
    (total : Nat) : Nat → List Op → Except Error Unit × List Event
  | _, [] => (.ok (), [])
  | i, op :: rest =>
    let step : Except Error Unit × List Event :=
      match op with
      | .read len =>
        let o := readGo (rresp i) (len - 1) false (i == total - 1) len 0
        (o.result, o.events)
      | .write bytes => write_internal (wresp i) bytes (i == total - 1)
    match step.1 with
    | .error e => (.error e, step.2)
    | .ok () =>
      let more := transactionSpecGo rresp wresp total (i + 1) rest
      (more.1, step.2 ++ more.2)

/-- Specification-side transaction: target address first, then the
claimed sequencing contract over the whole operation list. -/
def transactionSpec (rresp : Nat → Nat → ReadResp) (wresp : Nat → Nat → Option Nat)
    (address : Nat) (ops : List Op) : Except Error Unit × List Event :=
  let out := transactionSpecGo rresp wresp ops.length 0 ops
  (out.1, Event.setupTar address :: out.2)

lemma i2cPeriod_lt (freq_in freq : Nat) : i2cPeriod freq_in freq < U32 := by
  unfold i2cPeriod
  exact lt_of_le_of_lt (Nat.div_le_self _ _) (Nat.mod_lt _ (by unfold U32; omega))

lemma i2cLcnt_le_period (freq_in freq : Nat) (hl : i2cLcnt freq_in freq ≤ 65535) :
    i2cLcnt freq_in freq ≤ i2cPeriod freq_in freq := by
  have hp := i2cPeriod_lt freq_in freq
  unfold i2cLcnt at *
  unfold U32 at *
  by_cases h3 : i2cPeriod freq_in freq * 3 < 4294967296
  · rw [Nat.mod_eq_of_lt h3] at *
    omega
  · omega

lemma i2cHcnt_eq (freq_in freq : Nat) (hl : i2cLcnt freq_in freq ≤ 65535) :
    i2cHcnt freq_in freq = i2cPeriod freq_in freq - i2cLcnt freq_in freq := by
  have hp := i2cPeriod_lt freq_in freq
  have hle := i2cLcnt_le_period freq_in freq hl
  unfold i2cHcnt
  unfold U32 at *
  omega

lemma period3_nowrap (freq_in freq : Nat) (hl : i2cLcnt freq_in freq ≤ 65535)
    (hh : i2cHcnt freq_in freq ≤ 65535) :
    i2cPeriod freq_in freq * 3 < U32 ∧
    i2cLcnt freq_in freq = i2cPeriod freq_in freq * 3 / 5 := by
  have hp := i2cPeriod_lt freq_in freq
  have heq := i2cHcnt_eq freq_in freq hl
  rw [heq] at hh
  have hle := i2cLcnt_le_period freq_in freq hl
  unfold i2cLcnt at *
  unfold U32 at *
  by_cases h3 : i2cPeriod freq_in freq * 3 < 4294967296
  · rw [Nat.mod_eq_of_lt h3] at *
    exact ⟨h3, rfl⟩
  · exfalso
    omega

lemma sum_nowrap (freq_in freq : Nat) (hin : freq_in < U32) (hfr : freq ≤ 1000000)
    (h0 : freq ≠ 0) (hl8 : 8 ≤ i2cLcnt freq_in freq) :
    freq_in + freq / 2 < U32 ∧
    i2cPeriod freq_in freq = (freq_in + freq / 2) / freq := by
  by_cases hs : freq_in + freq / 2 < U32
  · exact ⟨hs, by unfold i2cPeriod; rw [Nat.mod_eq_of_lt hs]⟩
  · exfalso
    have hw : (freq_in + freq / 2) % U32 < freq := by unfold U32 at *; omega
    have hp0 : i2cPeriod freq_in freq = 0 := by unfold i2cPeriod; exact Nat.div_eq_of_lt hw
    have hl0 : i2cLcnt freq_in freq = 0 := by
      unfold i2cLcnt; rw [hp0]; norm_num
    omega

lemma new_controller_success (freq_in freq : Nat) (cfg : TimingConfig)
    (h : new_controller freq_in freq = some cfg) :
    freq ≠ 0 ∧ freq ≤ 1000000 ∧
    8 ≤ i2cHcnt freq_in freq ∧ i2cHcnt freq_in freq ≤ 65535 ∧
    8 ≤ i2cLcnt freq_in freq ∧ i2cLcnt freq_in freq ≤ 65535 ∧
    (freq = 1000000 → 32000000 ≤ freq_in) ∧
    i2cSdaHold freq_in freq ≤ i2cLcnt freq_in freq - 2 ∧
    cfg.fs_scl_hcnt = i2cHcnt freq_in freq ∧
    cfg.fs_scl_lcnt = i2cLcnt freq_in freq ∧
    cfg.fs_spklen =
      (if i2cLcnt freq_in freq < 16 then 1 else i2cLcnt freq_in freq / 16) % 256 ∧
    cfg.sda_tx_hold = i2cSdaHold freq_in freq := by
  unfold new_controller at h
  split_ifs at h with h1 h2 h3 h4 h5 h6 h7 h8 h9 <;>
  · injection h with h10
    subst h10
    refine ⟨h2, by omega, by omega, by omega, by omega, by omega, by omega, by omega,
      Nat.mod_eq_of_lt (by omega), Nat.mod_eq_of_lt (by omega), by simp [h9],
      Nat.mod_eq_of_lt (by omega)⟩

/-- C2: for every `(system_clock_hz, bus_freq_hz)` pair on which
`new_controller` completes without panicking, with
`period = (system_clock_hz + bus_freq_hz/2) / bus_freq_hz` in exact
integer arithmetic (the `u32` computation does not wrap on any completing
input), the register values satisfy `low_count = period * 3 / 5`,
`high_count = period - low_count`, hence
`high_count + low_count = period`, and the computed `sda_tx_hold_count`
satisfies `sda_tx_hold_count ≤ low_count - 2`. -/
theorem c2_timing_invariants (freq_in freq : Nat) (cfg : TimingConfig)
    (hin : freq_in < U32)
    (h : new_controller freq_in freq = some cfg) :
    cfg.fs_scl_lcnt = (freq_in + freq / 2) / freq * 3 / 5 ∧
    cfg.fs_scl_hcnt = (freq_in + freq / 2) / freq - (freq_in + freq / 2) / freq * 3 / 5 ∧
    cfg.fs_scl_hcnt + cfg.fs_scl_lcnt = (freq_in + freq / 2) / freq ∧
    cfg.sda_tx_hold ≤ cfg.fs_scl_lcnt - 2 := by
  obtain ⟨h0, hfr, hh8, hh, hl8, hl, -, hsda, ehc, elc, -, esda⟩ :=
    new_controller_success freq_in freq cfg h
  obtain ⟨hsum, hper⟩ := sum_nowrap freq_in freq hin hfr h0 hl8
  obtain ⟨h3lt, hleq⟩ := period3_nowrap freq_in freq hl hh
  have hlep := i2cLcnt_le_period freq_in freq hl
  have hheq := i2cHcnt_eq freq_in freq hl
  rw [ehc, elc, esda, ← hper]
  exact ⟨hleq, by omega, by omega, by omega⟩

/-- Witness for C2 at the concrete input
`system_clock_hz = 125 MHz`, `bus_freq_hz = 100 kHz`. -/
theorem c2_timing_invariants_witness :
    (⟨500, 750, 46, 38⟩ : TimingConfig).fs_scl_lcnt =
      (125000000 + 100000 / 2) / 100000 * 3 / 5 ∧
    (⟨500, 750, 46, 38⟩ : TimingConfig).fs_scl_hcnt =
      (125000000 + 100000 / 2) / 100000 -
        (125000000 + 100000 / 2) / 100000 * 3 / 5 ∧
    (⟨500, 750, 46, 38⟩ : TimingConfig).fs_scl_hcnt +
        (⟨500, 750, 46, 38⟩ : TimingConfig).fs_scl_lcnt =
      (125000000 + 100000 / 2) / 100000 ∧
    (⟨500, 750, 46, 38⟩ : TimingConfig).sda_tx_hold ≤
      (⟨500, 750, 46, 38⟩ : TimingConfig).fs_scl_lcnt - 2 :=
  c2_timing_invariants 125000000 100000 ⟨500, 750, 46, 38⟩ (by decide) (by decide)

/-- C3: `new_controller` panics (a fatal assertion) if and only if the
bus frequency is zero or above 1 MHz, a derived count leaves `[8, 65535]`,
fast-mode-plus is requested below a 32 MHz system clock, or the derived
data-hold count exceeds `low_count - 2`; for all other inputs
construction succeeds. -/
theorem c3_panic_iff (freq_in freq : Nat) :
    new_controller freq_in freq = none ↔
      (freq = 0 ∨ 1000000 < freq ∨
       i2cHcnt freq_in freq < 8 ∨ 65535 < i2cHcnt freq_in freq ∨
       i2cLcnt freq_in freq < 8 ∨ 65535 < i2cLcnt freq_in freq ∨
       (freq = 1000000 ∧ freq_in < 32000000) ∨
       i2cLcnt freq_in freq - 2 < i2cSdaHold freq_in freq) := by
  unfold new_controller
  generalize i2cHcnt freq_in freq = hc
  generalize i2cLcnt freq_in freq = lc
  generalize i2cSdaHold freq_in freq = sd
  split_ifs <;> simp_all <;> omega

/-- C6 counterexample: at `system_clock_hz = 1.5 GHz`,
`bus_freq_hz = 100 kHz`, construction completes with
`low_count = 9000`, but the spike-suppression register is written
`9000 / 16` truncated by the `as u8` cast (`562 % 256 = 50`), not
`562` as claimed, and the data-hold register is written from the
wrapped `u32` product `1500000000 * 3` (giving `21`), not
`1500000000 * 3 / 10000000 + 1 = 451` as claimed. -/
theorem c6_register_values_counterexample :
    new_controller 1500000000 100000 = some ⟨6000, 9000, 50, 21⟩ ∧
    (1500000000 + 100000 / 2) / 100000 * 3 / 5 = 9000 ∧
    ¬ (9000 : Nat) < 16 ∧ (9000 : Nat) / 16 = 562 ∧ (50 : Nat) ≠ 562 ∧
    1500000000 * 3 / 10000000 + 1 = 451 ∧ (21 : Nat) ≠ 451 := by decide

/-- C6 amended: on every completing pair, the spike-suppression register
is written `(if low_count < 16 then 1 else low_count / 16)` truncated to
8 bits by the `as u8` cast, and the data-hold register is written
`(system_clock_hz * 3) / 10000000 + 1` (standard/fast mode) or
`(system_clock_hz * 3) / 25000000 + 1` (fast mode plus) with the
product `system_clock_hz * 3` computed in wrapping 32-bit arithmetic. -/
theorem c6_register_values_amended (freq_in freq : Nat) (cfg : TimingConfig)
    (hin : freq_in < U32)
    (h : new_controller freq_in freq = some cfg) :
    cfg.fs_spklen =
      (if (freq_in + freq / 2) / freq * 3 / 5 < 16 then 1
       else (freq_in + freq / 2) / freq * 3 / 5 / 16) % 256 ∧
    cfg.sda_tx_hold =
      (if freq < 1000000 then freq_in * 3 % U32 / 10000000 + 1
       else freq_in * 3 % U32 / 25000000 + 1) := by
  obtain ⟨h0, hfr, hh8, hh, hl8, hl, -, hsda, -, -, espk, esda⟩ :=
    new_controller_success freq_in freq cfg h
  obtain ⟨hsum, hper⟩ := sum_nowrap freq_in freq hin hfr h0 hl8
  obtain ⟨h3lt, hleq⟩ := period3_nowrap freq_in freq hl hh
  constructor
  · rw [espk, hleq, hper]
  · rw [esda]; unfold i2cSdaHold; rfl

/-- Witness for the amended C6 at the concrete input
`system_clock_hz = 1.5 GHz`, `bus_freq_hz = 100 kHz`. -/
theorem c6_register_values_amended_witness :
    (⟨6000, 9000, 50, 21⟩ : TimingConfig).fs_spklen =
      (if (1500000000 + 100000 / 2) / 100000 * 3 / 5 < 16 then 1
       else (1500000000 + 100000 / 2) / 100000 * 3 / 5 / 16) % 256 ∧
    (⟨6000, 9000, 50, 21⟩ : TimingConfig).sda_tx_hold =
      (if 100000 < 1000000 then 1500000000 * 3 % U32 / 10000000 + 1
       else 1500000000 * 3 % U32 / 25000000 + 1) :=
  c6_register_values_amended 1500000000 100000 ⟨6000, 9000, 50, 21⟩
    (by decide) (by decide)

lemma getD_false_of_ne (o : Option Bool) (h : o ≠ some true) : o.getD false = false := by
  cases o with
  | none => rfl
  | some b =>
    cases b with
    | true => exact absurd rfl h
    | false => rfl

/-- C7: the validator rejects a present-and-empty write buffer first,
then a present-and-empty read buffer, then an address of `0x80` or more,
then a reserved address, and accepts everything else — for any
reserved-address predicate. -/
theorem c7_validate_order (reserved : Nat → Bool) (addr : Nat) (otx orx : Option Bool) :
    (otx = some true →
      validate reserved addr otx orx = .error .InvalidWriteBufferLength) ∧
    (otx ≠ some true → orx = some true →
      validate reserved addr otx orx = .error .InvalidReadBufferLength) ∧
    (otx ≠ some true → orx ≠ some true → 0x80 ≤ addr →
      validate reserved addr otx orx = .error (.AddressOutOfRange addr)) ∧
    (otx ≠ some true → orx ≠ some true → addr < 0x80 → reserved addr = true →
      validate reserved addr otx orx = .error (.AddressReserved addr)) ∧
    (otx ≠ some true → orx ≠ some true → addr < 0x80 → reserved addr = false →
      validate reserved addr otx orx = .ok ()) := by
  refine ⟨?_, ?_, ?_, ?_, ?_⟩
  · intro h1
    simp [validate, h1]
  · intro h1 h2
    simp [validate, getD_false_of_ne otx h1, h2]
  · intro h1 h2 h3
    simp [validate, getD_false_of_ne otx h1, getD_false_of_ne orx h2, h3]
  · intro h1 h2 h3 h4
    simp [validate, getD_false_of_ne otx h1, getD_false_of_ne orx h2,
      Nat.not_le.mpr h3, h4]
  · intro h1 h2 h3 h4
    simp [validate, getD_false_of_ne otx h1, getD_false_of_ne orx h2,
      Nat.not_le.mpr h3, h4]

/-- Witness for C7 at `addr = 0x80` with no buffers supplied. -/
theorem c7_validate_order_witness :
    validate (fun _ => false) 128 none none = .error (.AddressOutOfRange 128) :=
  (c7_validate_order (fun _ => false) 128 none none).2.2.1 (by simp) (by simp) (by omega)

/-- C1 counterexample: `transaction` with the out-of-range address `0x80`
performs no validation — it programs the target-address register,
executes the write, and returns `Ok` instead of an argument error. -/
theorem c1_validation_counterexample :
    transaction (fun _ _ => ReadResp.ok 0) (fun _ _ => none) 128 [Op.write [1]] =
      some (.ok (), [Event.setupTar 128, Event.cmdWrite 1 true]) ∧
    validate (fun _ => false) 128 (some false) none =
      .error (.AddressOutOfRange 128) := by decide

/-- C1 amended: `write`, `read`, `write_read` and `write_iter` return the
argument error of `validate` with no hardware event when validation
fails; `write_iter_read` validates only the address and the write source
(not the read buffer); `transaction` and `transaction_iter` perform no
argument validation and program the target-address register first. -/
theorem c1_validation_amended :
    (∀ (reserved : Nat → Bool) (wresp : Nat → Option Nat) (addr : Nat)
        (bytes : List Nat) (e : Error),
      validate reserved addr (some bytes.isEmpty) none = .error e →
      write reserved wresp addr bytes = (.error e, [])) ∧
    (∀ (reserved : Nat → Bool) (resp : Nat → ReadResp) (addr len : Nat) (e : Error),
      validate reserved addr none (some (len == 0)) = .error e →
      read reserved resp addr len = some (.error e, [], [])) ∧
    (∀ (reserved : Nat → Bool) (wresp : Nat → Option Nat) (resp : Nat → ReadResp)
        (addr : Nat) (tx : List Nat) (rxLen : Nat) (e : Error),
      validate reserved addr (some tx.isEmpty) (some (rxLen == 0)) = .error e →
      write_read reserved wresp resp addr tx rxLen = some (.error e, [], [])) ∧
    (∀ (reserved : Nat → Bool) (wresp : Nat → Option Nat) (addr : Nat)
        (bytes : List Nat) (e : Error),
      validate reserved addr (some bytes.isEmpty) none = .error e →
      write_iter reserved wresp addr bytes = (.error e, [])) ∧
    (∀ (reserved : Nat → Bool) (wresp : Nat → Option Nat) (resp : Nat → ReadResp)
        (addr : Nat) (bytes : List Nat) (rxLen : Nat) (e : Error),
      validate reserved addr (some bytes.isEmpty) none = .error e →
      write_iter_read reserved wresp resp addr bytes rxLen = some (.error e, [], [])) ∧
    (∀ rresp wresp (addr : Nat) (ops : List Op) out,
      transaction rresp wresp addr ops = some out →
      ∃ evs, out.2 = Event.setupTar addr :: evs) ∧
    (∀ rresp wresp (addr : Nat) (ops : List Op) out,
      transaction_iter rresp wresp addr ops = some out →
      ∃ evs, out.2 = Event.setupTar addr :: evs) := by
  refine ⟨?_, ?_, ?_, ?_, ?_, ?_, ?_⟩
  · intro reserved wresp addr bytes e hv
    simp [write, hv]
  · intro reserved resp addr len e hv
    simp [read, hv]
  · intro reserved wresp resp addr tx rxLen e hv
    simp [write_read, hv]
  · intro reserved wresp addr bytes e hv
    simp [write_iter, hv]
  · intro reserved wresp resp addr bytes rxLen e hv
    simp [write_iter_read, hv]
  · intro rresp wresp addr ops out h
    unfold transaction at h
    cases hgo : transactionGo rresp wresp ops.length 0 ops with
    | none => rw [hgo] at h; simp at h
    | some o =>
      rw [hgo] at h
      injection h with h2
      exact ⟨o.2, by rw [← h2]⟩
  · intro rresp wresp addr ops out h
    unfold transaction_iter at h
    cases hgo : transactionIterGo rresp wresp 0 ops with
    | none => rw [hgo] at h; simp at h
    | some o =>
      rw [hgo] at h
      injection h with h2
      exact ⟨o.2, by rw [← h2]⟩

/-- Witness for the amended C1: `write` to an empty buffer fails before
any hardware event. -/
theorem c1_validation_amended_witness :
    write (fun _ => false) (fun _ => none) 0 [] = (.error .InvalidWriteBufferLength, []) :=
  c1_validation_amended.1 (fun _ => false) (fun _ => none) 0 []
    Error.InvalidWriteBufferLength (by decide)

/-- C10: `read_internal` on an empty buffer is the underflow panic of
`buffer.len() - 1` (no FIFO command is issued); `read` and `write_read`
establish non-emptiness through validation and return
`InvalidReadBufferLength` instead; but `transaction`, `transaction_iter`
and `write_iter_read` reach `read_internal` with an empty buffer and hit
the panic. -/
theorem c10_empty_read_panic :
    (∀ (resp : Nat → ReadResp) (fr ds : Bool), read_internal resp 0 fr ds = none) ∧
    (∀ (reserved : Nat → Bool) (resp : Nat → ReadResp) (addr : Nat),
      read reserved resp addr 0 = some (.error .InvalidReadBufferLength, [], [])) ∧
    (∀ (reserved : Nat → Bool) (wresp : Nat → Option Nat) (resp : Nat → ReadResp)
        (addr : Nat) (tx : List Nat), tx ≠ [] →
      write_read reserved wresp resp addr tx 0 =
        some (.error .InvalidReadBufferLength, [], [])) ∧
    (∀ rresp wresp (addr : Nat), transaction rresp wresp addr [Op.read 0] = none) ∧
    (∀ rresp wresp (addr : Nat), transaction_iter rresp wresp addr [Op.read 0] = none) ∧
    (∀ (resp : Nat → ReadResp),
      write_iter_read (fun _ => false) (fun _ => none) resp 16 [1] 0 = none) := by
  refine ⟨?_, ?_, ?_, ?_, ?_, ?_⟩
  · intro resp fr ds
    simp [read_internal]
  · intro reserved resp addr
    simp [read, validate]
  · intro reserved wresp resp addr tx htx
    have hne : tx.isEmpty = false := by
      cases tx with
      | nil => exact absurd rfl htx
      | cons a l => rfl
    simp [write_read, validate, hne]
  · intro rresp wresp addr
    rfl
  · intro rresp wresp addr
    rfl
  · intro resp
    rfl

/-- Witness for C10: a non-empty write source with an empty read buffer
slips through the validation of `write_read`'s claim-counterpart. -/
theorem c10_empty_read_panic_witness :
    write_read (fun _ => false) (fun _ => none) (fun _ => ReadResp.ok 0) 16 [1] 0 =
      some (.error .InvalidReadBufferLength, [], []) :=
  c10_empty_read_panic.2.2.1 (fun _ => false) (fun _ => none)
    (fun _ => ReadResp.ok 0) 16 [1] (by simp)

lemma readGo_abort (resp : Nat → ReadResp) (lastindex i r : Nat) (fr ds : Bool)
    (habort : resp i = .abort r) (hok : ∀ k < i, ∃ b, resp k = .ok b) :
    ∀ fuel j, j ≤ i → i < j + fuel →
      (readGo resp lastindex fr ds fuel j).result = .error (.Abort r) ∧
      ∀ p ∈ (readGo resp lastindex fr ds fuel j).writes, p.1 < i := by
  intro fuel
  induction fuel with
  | zero => intro j hj hlt; omega
  | succ n ih =>
    intro j hj hlt
    by_cases hji : j = i
    · subst hji
      simp [readGo, habort]
    · obtain ⟨b, hb⟩ := hok j (by omega)
      have hrec := ih (j + 1) (by omega) (by omega)
      simp only [readGo, hb]
      refine ⟨hrec.1, ?_⟩
      intro p hp
      simp only [List.mem_cons] at hp
      rcases hp with h | h
      · subst h; simpa using by omega
      · exact hrec.2 p h

/-- C8: if the abort reason becomes non-zero while `read_internal` waits
for the byte at index `i`, the call returns `Err(Abort(reason))` at once
and no buffer slot at index `i` or later is ever written. -/
theorem c8_abort_frame (resp : Nat → ReadResp) (len i r : Nat) (fr ds : Bool)
    (hi : i < len) (habort : resp i = .abort r)
    (hok : ∀ k < i, ∃ b, resp k = .ok b) :
    ∃ o, read_internal resp len fr ds = some o ∧
      o.result = .error (.Abort r) ∧
      ∀ p ∈ o.writes, p.1 < i := by
  have hlen : ¬ len = 0 := by omega
  refine ⟨readGo resp (len - 1) fr ds len 0, by simp [read_internal, hlen], ?_, ?_⟩
  · exact (readGo_abort resp (len - 1) i r fr ds habort hok len 0 (by omega) (by omega)).1
  · exact (readGo_abort resp (len - 1) i r fr ds habort hok len 0 (by omega) (by omega)).2

/-- Witness for C8: a 3-byte read aborting at index 1 writes no slot
past index 0. -/
theorem c8_abort_frame_witness :
    ∃ o, read_internal
        (fun j => if j = 0 then ReadResp.ok 5 else ReadResp.abort 3) 3 true true = some o ∧
      o.result = .error (.Abort 3) ∧
      ∀ p ∈ o.writes, p.1 < 1 :=
  c8_abort_frame (fun j => if j = 0 then ReadResp.ok 5 else ReadResp.abort 3) 3 1 3
    true true (by omega) (by decide)
    (fun k hk => by
      have hk0 : k = 0 := Nat.lt_one_iff.mp hk
      subst hk0
      exact ⟨5, rfl⟩)

lemma writeGo_ok (wresp : Nat → Option Nat) (total : Nat) (hok : ∀ k, wresp k = none) :
    ∀ (bytes : List Nat) (j : Nat),
      writeGo wresp total false j bytes =
        (.ok (), bytes.map fun b => Event.cmdWrite b false) := by
  intro bytes
  induction bytes with
  | nil => intro j; rfl
  | cons b rest ih =>
    intro j
    simp only [writeGo, hok j, List.map]
    rw [ih (j + 1)]
    simp

lemma readGo_ok (bytes : Nat → Nat) (lastindex : Nat) (fr ds : Bool) :
    ∀ fuel j, readGo (fun k => ReadResp.ok (bytes k)) lastindex fr ds fuel j =
      ⟨.ok (),
       (List.range' j fuel).map fun k => Event.cmdRead (fr && k == 0) (ds && k == lastindex),
       (List.range' j fuel).map fun k => (k, bytes k)⟩ := by
  intro fuel
  induction fuel with
  | zero => intro j; rfl
  | succ n ih =>
    intro j
    simp only [readGo]
    rw [ih (j + 1)]
    simp [List.range'_succ]

/-- C5: for every `tx` and `rx` that pass validation, `write_read` (with
no hardware abort) pushes every byte of `tx` with the stop flag disabled,
then issues one read command per byte of `rx`, with the restart flag
enabled exactly on the first read command and the stop flag enabled
exactly on the last one. -/
theorem c5_write_read_framing (reserved : Nat → Bool) (bytes : Nat → Nat)
    (addr : Nat) (tx : List Nat) (rxLen : Nat)
    (hv : validate reserved addr (some tx.isEmpty) (some (rxLen == 0)) = .ok ()) :
    write_read reserved (fun _ => none) (fun j => ReadResp.ok (bytes j)) addr tx rxLen =
      some (.ok (),
        Event.setupTar addr ::
          ((tx.map fun b => Event.cmdWrite b false) ++
           (List.range rxLen).map fun j => Event.cmdRead (j == 0) (j == rxLen - 1)),
        (List.range rxLen).map fun j => (j, bytes j)) := by
  have hrx : ¬ rxLen = 0 := by
    intro h0
    subst h0
    unfold validate at hv
    cases htx : tx.isEmpty <;> simp [htx] at hv
  unfold write_read
  rw [hv]
  have hw : write_internal (fun _ => none) tx false =
      (.ok (), tx.map fun b => Event.cmdWrite b false) := by
    unfold write_internal
    exact writeGo_ok (fun _ => none) tx.length (fun k => rfl) tx 0
  rw [hw]
  simp only [read_internal, hrx, if_false]
  rw [readGo_ok bytes (rxLen - 1) true true rxLen 0]
  simp [List.range_eq_range', Bool.true_and]

/-- Witness for C5 with `tx = [1]` and a 2-byte read. -/
theorem c5_write_read_framing_witness :
    write_read (fun _ => false) (fun _ => none) (fun j => ReadResp.ok (j + 10)) 16 [1] 2 =
      some (.ok (),
        [Event.setupTar 16, Event.cmdWrite 1 false,
         Event.cmdRead true false, Event.cmdRead false true],
        [(0, 10), (1, 11)]) := by
  have h := c5_write_read_framing (fun _ => false) (fun j => j + 10) 16 [1] 2 (by decide)
  rw [h]
  decide

lemma transactionGo_eq_spec (rresp : Nat → Nat → ReadResp) (wresp : Nat → Nat → Option Nat)
    (total : Nat) :
    ∀ (ops : List Op) (i : Nat), (∀ op ∈ ops, opReadNonempty op = true) →
      transactionGo rresp wresp total i ops =
        some (transactionSpecGo rresp wresp total i ops) := by
  intro ops
  induction ops with
  | nil => intro i h; rfl
  | cons op rest ih =>
    intro i h
    have hrest : ∀ o ∈ rest, opReadNonempty o = true :=
      fun o ho => h o (List.mem_cons_of_mem _ ho)
    cases op with
    | read len =>
      have hlen : ¬ len = 0 := by
        have hh := h (Op.read len) (List.mem_cons_self _ _)
        simpa [opReadNonempty] using hh
      simp only [transactionGo, transactionSpecGo, read_internal, hlen, if_false]
      cases hres : (readGo (rresp i) (len - 1) false (i == total - 1) len 0).result with
      | error e => simp [hres]
      | ok u =>
        cases u
        simp [hres, ih (i + 1) hrest]
    | write bytes =>
      simp only [transactionGo, transactionSpecGo]
      cases hres : (write_internal (wresp i) bytes (i == total - 1)).1 with
      | error e => simp [hres]
      | ok u =>
        cases u
        simp [hres, ih (i + 1) hrest]

lemma transactionIterGo_eq (rresp : Nat → Nat → ReadResp) (wresp : Nat → Nat → Option Nat) :
    ∀ (ops : List Op) (i : Nat),
      transactionIterGo rresp wresp i ops =
        transactionGo rresp wresp (i + ops.length) i ops := by
  intro ops
  induction ops with
  | nil => intro i; rfl
  | cons op rest ih =>
    intro i
    have harith : i + (op :: rest).length = (i + 1) + rest.length := by
      simp only [List.length_cons]
      omega
    rw [harith]
    have hlast : rest.isEmpty = (i == (i + 1) + rest.length - 1) := by
      cases rest with
      | nil => simp
      | cons a l =>
        simp only [List.isEmpty_cons, List.length_cons]
        symm
        rw [beq_eq_false_iff_ne]
        omega
    simp only [transactionIterGo, transactionGo, ← hlast, ih (i + 1)]

/-- C4: `transaction` and `transaction_iter` agree with the sequencing
contract of the specification: operations run in order; a read at index
`i` runs with `force_restart = false` and stop exactly on the last
operation; a write sets stop exactly on the final byte of the final
operation; execution halts at the first failing byte transfer, returning
that error.  The hypothesis requires every read buffer to be non-empty
(the stated input contract of `transaction`). -/
theorem c4_transaction_order (rresp : Nat → Nat → ReadResp) (wresp : Nat → Nat → Option Nat)
    (addr : Nat) (ops : List Op) (hne : ops ≠ [])
    (hbufs : ∀ op ∈ ops, opReadNonempty op = true) :
    transaction rresp wresp addr ops = some (transactionSpec rresp wresp addr ops) ∧
    transaction_iter rresp wresp addr ops = some (transactionSpec rresp wresp addr ops) := by
  have hA := transactionGo_eq_spec rresp wresp ops.length ops 0 hbufs
  have hB := transactionIterGo_eq rresp wresp ops 0
  rw [Nat.zero_add] at hB
  constructor
  · unfold transaction transactionSpec
    rw [hA]
    rfl
  · unfold transaction_iter transactionSpec
    rw [hB, hA]
    rfl

/-- Witness for C4: a write followed by a read, with no aborts. -/
theorem c4_transaction_order_witness :
    transaction (fun _ _ => ReadResp.ok 9) (fun _ _ => none) 16
        [Op.write [1, 2], Op.read 2] =
      some (transactionSpec (fun _ _ => ReadResp.ok 9) (fun _ _ => none) 16
        [Op.write [1, 2], Op.read 2]) ∧
    transaction_iter (fun _ _ => ReadResp.ok 9) (fun _ _ => none) 16
        [Op.write [1, 2], Op.read 2] =
      some (transactionSpec (fun _ _ => ReadResp.ok 9) (fun _ _ => none) 16
        [Op.write [1, 2], Op.read 2]) :=
  c4_transaction_order (fun _ _ => ReadResp.ok 9) (fun _ _ => none) 16
    [Op.write [1, 2], Op.read 2] (by simp) (by decide)

lemma readGo_no_restart (resp : Nat → ReadResp) (lastindex : Nat) (ds : Bool) :
    ∀ (fuel j : Nat) (s : Bool),
      Event.cmdRead true s ∉ (readGo resp lastindex false ds fuel j).events := by
  intro fuel
  induction fuel with
  | zero => intro j s; simp [readGo]
  | succ n ih =>
    intro j s
    cases hr : resp j with
    | abort r => simp [readGo, hr]
    | ok b =>
      simp only [readGo, hr, Bool.false_and, List.mem_cons, not_or]
      exact ⟨by simp, ih (j + 1) s⟩

lemma writeGo_no_cmdRead (wresp : Nat → Option Nat) (total : Nat) (ds : Bool) :
    ∀ (bytes : List Nat) (j : Nat) (r s : Bool),
      Event.cmdRead r s ∉ (writeGo wresp total ds j bytes).2 := by
  intro bytes
  induction bytes with
  | nil => intro j r s; simp [writeGo]
  | cons b rest ih =>
    intro j r s
    cases hw : wresp j with
    | some a => simp [writeGo, hw]
    | none =>
      simp only [writeGo, hw, List.mem_cons, not_or]
      exact ⟨by simp, ih (j + 1) r s⟩

lemma transactionGo_no_restart (rresp : Nat → Nat → ReadResp) (wresp : Nat → Nat → Option Nat)
    (total : Nat) :
    ∀ (ops : List Op) (i : Nat) (out : Except Error Unit × List Event) (s : Bool),
      transactionGo rresp wresp total i ops = some out →
      Event.cmdRead true s ∉ out.2 := by
  intro ops
  induction ops with
  | nil =>
    intro i out s h
    injection h with h2
    rw [← h2]
    simp
  | cons op rest ih =>
    intro i out s h
    cases op with
    | read len =>
      simp only [transactionGo] at h
      cases hri : read_internal (rresp i) len false (i == total - 1) with
      | none => rw [hri] at h; exact absurd h (by simp)
      | some o =>
        rw [hri] at h
        dsimp only at h
        have ho : ∀ s2 : Bool, Event.cmdRead true s2 ∉ o.events := by
          intro s2
          have hoeq : o = readGo (rresp i) (len - 1) false (i == total - 1) len 0 := by
            unfold read_internal at hri
            by_cases hl : len = 0
            · simp [hl] at hri
            · simp only [hl, if_false] at hri
              exact (Option.some_inj.mp hri).symm
          rw [hoeq]
          exact readGo_no_restart (rresp i) (len - 1) (i == total - 1) len 0 s2
        cases hrr : o.result with
        | error e =>
          rw [hrr] at h
          injection h with h2
          rw [← h2]
          exact ho s
        | ok u =>
          cases u
          rw [hrr] at h
          cases hrec : transactionGo rresp wresp total (i + 1) rest with
          | none => rw [hrec] at h; exact absurd h (by simp)
          | some out2 =>
            rw [hrec] at h
            injection h with h2
            rw [← h2]
            simp only [List.mem_append, not_or]
            exact ⟨ho s, ih (i + 1) out2 s hrec⟩
    | write bytes =>
      simp only [transactionGo] at h
      cases hwr : (write_internal (wresp i) bytes (i == total - 1)).1 with
      | error e =>
        rw [hwr] at h
        injection h with h2
        rw [← h2]
        exact writeGo_no_cmdRead (wresp i) bytes.length (i == total - 1) bytes 0 true s
      | ok u =>
        cases u
        rw [hwr] at h
        cases hrec : transactionGo rresp wresp total (i + 1) rest with
        | none => rw [hrec] at h; exact absurd h (by simp)
        | some out2 =>
          rw [hrec] at h
          injection h with h2
          rw [← h2]
          simp only [List.mem_append, not_or]
          exact ⟨writeGo_no_cmdRead (wresp i) bytes.length (i == total - 1) bytes 0 true s,
            ih (i + 1) out2 s hrec⟩

/-- C9 counterexample: the standalone public `read` invokes the byte
engine with `force_restart = true`, so its first read command carries the
restart flag — refuting the claim that only `write_read` passes
`force_restart = true`. -/
theorem c9_restart_counterexample :
    read (fun _ => false) (fun _ => ReadResp.ok 0) 16 1 =
      some (.ok (), [Event.setupTar 16, Event.cmdRead true true], [(0, 0)]) := by decide

/-- C9 amended: `read`, `write_read` and `write_iter_read` all invoke
`read_internal` with `force_restart = true`; `transaction` and
`transaction_iter` invoke it with `force_restart = false`, so their
traces never contain a read command with the restart flag set. -/
theorem c9_force_restart_amended :
    (∀ (reserved : Nat → Bool) (resp : Nat → ReadResp) (addr len : Nat),
      validate reserved addr none (some (len == 0)) = .ok () →
      read reserved resp addr len =
        (read_internal resp len true true).map fun o =>
          (o.result, Event.setupTar addr :: o.events, o.writes)) ∧
    (∀ (reserved : Nat → Bool) (wresp : Nat → Option Nat) (resp : Nat → ReadResp)
        (addr : Nat) (tx : List Nat) (rxLen : Nat),
      validate reserved addr (some tx.isEmpty) (some (rxLen == 0)) = .ok () →
      (write_internal wresp tx false).1 = .ok () →
      write_read reserved wresp resp addr tx rxLen =
        (read_internal resp rxLen true true).map fun o =>
          (o.result, Event.setupTar addr :: ((write_internal wresp tx false).2 ++ o.events),
           o.writes)) ∧
    (∀ (reserved : Nat → Bool) (wresp : Nat → Option Nat) (resp : Nat → ReadResp)
        (addr : Nat) (bytes : List Nat) (rxLen : Nat),
      validate reserved addr (some bytes.isEmpty) none = .ok () →
      (writesNoStop wresp 0 bytes).1 = .ok () →
      write_iter_read reserved wresp resp addr bytes rxLen =
        (read_internal resp rxLen true true).map fun o =>
          (o.result, Event.setupTar addr :: ((writesNoStop wresp 0 bytes).2 ++ o.events),
           o.writes)) ∧
    (∀ rresp wresp (addr : Nat) (ops : List Op) (out : Except Error Unit × List Event)
        (s : Bool),
      transaction rresp wresp addr ops = some out → Event.cmdRead true s ∉ out.2) ∧
    (∀ rresp wresp (addr : Nat) (ops : List Op) (out : Except Error Unit × List Event)
        (s : Bool),
      transaction_iter rresp wresp addr ops = some out → Event.cmdRead true s ∉ out.2) := by
  refine ⟨?_, ?_, ?_, ?_, ?_⟩
  · intro reserved resp addr len hv
    unfold read
    rw [hv]
  · intro reserved wresp resp addr tx rxLen hv hw
    unfold write_read
    rw [hv]
    simp only []
    rw [hw]
  · intro reserved wresp resp addr bytes rxLen hv hw
    unfold write_iter_read
    rw [hv]
    simp only []
    rw [hw]
  · intro rresp wresp addr ops out s h
    unfold transaction at h
    cases hgo : transactionGo rresp wresp ops.length 0 ops with
    | none => rw [hgo] at h; exact absurd h (by simp)
    | some o =>
      rw [hgo] at h
      injection h with h2
      rw [← h2]
      simp only [List.mem_cons, not_or]
      exact ⟨by simp, transactionGo_no_restart rresp wresp ops.length ops 0 o s hgo⟩
  · intro rresp wresp addr ops out s h
    unfold transaction_iter at h
    rw [transactionIterGo_eq rresp wresp ops 0] at h
    cases hgo : transactionGo rresp wresp (0 + ops.length) 0 ops with
    | none => rw [hgo] at h; exact absurd h (by simp)
    | some o =>
      rw [hgo] at h
      injection h with h2
      rw [← h2]
      simp only [List.mem_cons, not_or]
      exact ⟨by simp, transactionGo_no_restart rresp wresp (0 + ops.length) ops 0 o s hgo⟩

/-- Witness for the amended C9: a single-read `transaction` issues its
read command without the restart flag. -/
theorem c9_force_restart_amended_witness :
    Event.cmdRead true true ∉
      ((Except.ok (), [Event.setupTar 16, Event.cmdRead false true]) :
        Except Error Unit × List Event).2 :=
  c9_force_restart_amended.2.2.2.1 (fun _ _ => ReadResp.ok 0) (fun _ _ => none) 16
    [Op.read 1] (Except.ok (), [Event.setupTar 16, Event.cmdRead false true]) true
    (by decide)

end RpHalI2c
